import Mathlib

/-!
Verification development for the Pupy101/CLIP repository.

The definitions below are a shallow embedding of the relevant parts of
src/clip.py, src/model/clip.py and utils/dataset.py. Pure computations are
Lean functions over exact numbers (rationals for the sampler and the logits,
reals for the normalization step); the numpy and torch primitives that the
source calls are modelled from their documented behaviour, which the doc
comments record.
-/

/-! ### Similarity head: CLIP cosine similarity (src/clip.py lines 125-139) -/

/-- Embedding of the private cosine similarity method of class CLIP in
src/clip.py: logits_image = logit_scale * image_features @ text_features.t()
and logits_text = logits_image.t(). The scale argument stands for the value
of self.logit_scale.exp(); matrices are functions over Fin indices and the
matrix product entry (i, j) is the dot product of image row i with text row
j. -/
def cosine_similarity {m n d : ℕ} (scale : ℚ)
    (image_features : Fin m → Fin d → ℚ) (text_features : Fin n → Fin d → ℚ) :
    (Fin m → Fin n → ℚ) × (Fin n → Fin m → ℚ) :=
  let logits_image : Fin m → Fin n → ℚ :=
    fun i j => scale * ∑ k, image_features i k * text_features j k
  let logits_text : Fin n → Fin m → ℚ := fun j i => logits_image i j
  (logits_image, logits_text)

/-- Embedding of the logit computation of VisionPartCLIP.forward in
src/model/clip.py lines 53-56: image_logit = self.logit_scale.exp() *
image_embedding @ text_embedding.t() and text_logit = image_logit.t(). -/
def vision_part_logits {m n d : ℕ} (scale : ℚ)
    (image_embedding : Fin m → Fin d → ℚ) (text_embedding : Fin n → Fin d → ℚ) :
    (Fin m → Fin n → ℚ) × (Fin n → Fin m → ℚ) :=
  let image_logit : Fin m → Fin n → ℚ :=
    fun i j => scale * ∑ k, image_embedding i k * text_embedding j k
  let text_logit : Fin n → Fin m → ℚ := fun j i => image_logit i j
  (image_logit, text_logit)

/-! ### Embedding normalization (src/clip.py lines 45-69, src/model/clip.py
line 52) -/

/-- L2 norm of a vector, the tensor.norm(dim=-1) call of the source. -/
noncomputable def l2norm {n : ℕ} (v : Fin n → ℝ) : ℝ :=
  Real.sqrt (∑ i, v i ^ 2)

/-- Division with floating point semantics: a division by zero yields a
non-finite value (NaN or an infinity), recorded as none; torch raises no
error for it. -/
noncomputable def fdiv (x y : ℝ) : Option ℝ :=
  if y = 0 then Option.none else Option.some (x / y)

/-- Embedding of the normalization in the private forward image method of
class CLIP, src/clip.py lines 51-56: image_embedding divided componentwise by
image_embedding.norm(dim=-1, keepdim=True), with float division semantics.
The private forward text method, lines 64-69, is the same computation. -/
noncomputable def forward_image {n : ℕ} (v : Fin n → ℝ) : Fin n → Option ℝ :=
  fun i => fdiv (v i) (l2norm v)

/-- Embedding of torch.nn.functional.normalize as called in
src/model/clip.py line 52, modelled from the torch documentation:
v / max(norm(v), eps). The eps clamp means a zero norm is never a division
by zero; the zero vector is returned unchanged. -/
noncomputable def normalizeEps {n : ℕ} (eps : ℝ) (v : Fin n → ℝ) : Fin n → ℝ :=
  fun i => v i / max (l2norm v) eps

/-! ### Caption sampler (utils/dataset.py, TextAndImageFromCSV, lines 53-56) -/

/-- Weights of utils/dataset.py line 54: marks = 5 - np.array(ranks). -/
def marksOf (ranks : List ℤ) : List ℚ :=
  ranks.map (fun (r : ℤ) => 5 - (r : ℚ))

/-- Probability vector of utils/dataset.py line 55: marks / np.sum(marks)
with numpy float semantics: when the sum is zero every quotient is
non-finite (0 / 0 is NaN), recorded as none; numpy emits only a warning for
this, not an error. -/
def probabilityOf (ranks : List ℤ) : List (Option ℚ) :=
  let m := marksOf ranks
  let s := m.sum
  m.map (fun x => if s = 0 then Option.none else Option.some (x / s))

/-- Running sums with an accumulator: cumsumFrom a l lists a plus each
nonempty initial segment sum of l. -/
def cumsumFrom (a : ℚ) : List ℚ → List ℚ
  | [] => []
  | x :: xs => (a + x) :: cumsumFrom (a + x) xs

/-- Cumulative sums, the p.cumsum() of numpy. -/
def cumsum (l : List ℚ) : List ℚ := cumsumFrom 0 l

/-- Count of leading entries that are at most u; on a nondecreasing list
this is the insertion index that numpy searchsorted computes for the right
side. -/
def searchsortedRight : List ℚ → ℚ → ℕ
  | [], _ => 0
  | x :: xs, u => if x ≤ u then searchsortedRight xs u + 1 else 0

/-- Model of np.random.choice(texts, p=probability) for a single draw, from
the numpy documentation and reference implementation: the probability vector
is validated (ValueError when it contains NaN, holds a negative entry, or
does not sum to 1) and then the index is drawn by inverse transform
sampling: cdf = p.cumsum(); cdf = cdf / cdf[-1]; index = the insertion point
of the uniform sample u. The argument u stands for the uniform draw from the
interval [0, 1). -/
def npRandomChoice (p : List (Option ℚ)) (u : ℚ) : Except String ℕ :=
  if ∃ x ∈ p, x = Option.none then Except.error "probabilities contain NaN"
  else
    let q : List ℚ := p.map (fun x => x.getD 0)
    if ∃ x ∈ q, x < 0 then Except.error "probabilities are not non-negative"
    else if q.sum ≠ 1 then Except.error "probabilities do not sum to 1"
    else
      let cdf := cumsum q
      Except.ok (searchsortedRight (cdf.map (fun c => c / cdf.getLastD 0)) u)

/-- Caption selection of TextAndImageFromCSV in utils/dataset.py lines
53-56: build the probability vector from the comment_number ranks of the
record and draw one caption index with np.random.choice. -/
def chooseCaption (ranks : List ℤ) (u : ℚ) : Except String ℕ :=
  npRandomChoice (probabilityOf ranks) u

/-! ### Token truncation and padding (utils/dataset.py lines 57-68) -/

/-- Embedding of the tokenized text handling of TextAndImageFromCSV: keep
the first max_size_seq_len token ids and, when the result is shorter than
max_size_seq_len, concatenate that many pad tokens 0 on the right. -/
def padTokens (tokens : List ℤ) (maxLen : ℕ) : List ℤ :=
  let t := tokens.take maxLen
  let paddingCount := maxLen - t.length
  if paddingCount ≠ 0 then t ++ List.replicate paddingCount 0 else t

/-! ### Dataset split (utils/dataset.py, create_datasets_from_csv, lines
109-114) -/

/-- Unique image keys of the rows. The key order that pandas groupby
produces (sorted keys) differs from the dedup order used here; none of the
verified properties depend on the order of the grouped records. -/
def groupKeys {α : Type} (rows : List (String × α)) : List String :=
  (rows.map Prod.fst).dedup

/-- Embedding of df.groupby(by=image_name).agg of utils/dataset.py lines
109-111: one record per unique image key, carrying the list of the payloads
of all rows of that key in row order. The payload type stands for the pair
of the comment_number and comment columns that the source aggregates into
lists. -/
def groupByImage {α : Type} (rows : List (String × α)) : List (String × List α) :=
  (groupKeys rows).map
    (fun k => (k, (rows.filter (fun r => decide (r.1 = k))).map Prod.snd))

/-- Python round(0.8 * num_example) over the exact rational value. The value
0.8 * n is never half-integral, so round half to even and round half up
agree on it. -/
def round08 (n : ℕ) : ℕ :=
  (round ((4 * n : ℚ) / 5)).toNat

/-- Embedding of the split of create_datasets_from_csv lines 109-114: group
the rows per image, evaluate df.sample(frac=1) whose result line 112 of the
source discards, and slice the grouped records at round(0.8 * count) into
the train and valid parts. The shuffle argument stands for the pandas
sampling together with its hidden randomness. -/
def createSplit {α : Type}
    (shuffle : List (String × List α) → List (String × List α))
    (rows : List (String × α)) :
    List (String × List α) × List (String × List α) :=
  let df := groupByImage rows
  let _shuffled := shuffle df
  let k := round08 df.length
  (df.take k, df.drop k)

/-! ### Projection head (src/clip.py, CLIP init, lines 31-43) -/

/-- Image tower built by the CLIP constructor: either the bare backbone or
nn.Sequential(backbone, nn.Linear(image_shape, text_shape)). -/
inductive ImageModel where
  | plain : ImageModel
  | withProjection (inDim outDim : ℕ) : ImageModel
deriving DecidableEq

/-- Embedding of src/clip.py lines 35-42: the projection layer is added on
the image side exactly when the two dimensions differ, and it maps
image_shape to text_shape. -/
def clipInitImageModel (image_shape text_shape : ℕ) : ImageModel :=
  if image_shape = text_shape then ImageModel.plain
  else ImageModel.withProjection image_shape text_shape

/-- Output dimension of the image tower built by the constructor. -/
def imageModelOutDim (image_shape : ℕ) : ImageModel → ℕ
  | ImageModel.plain => image_shape
  | ImageModel.withProjection _ o => o

/-- Whether the image tower received a projection layer. -/
def imageModelHasProjection : ImageModel → Bool
  | ImageModel.plain => false
  | ImageModel.withProjection _ _ => true

/-- Src/clip.py line 33 stores the text backbone unchanged (self.text_model
= text_embedding), so the text side never receives a projection layer. -/
def clipInitTextHasProjection : Bool := false

/-! ### Backbone configuration (src/clip.py lines 142-219) -/

/-- A named torch module as listed by list(model.named_modules()); only the
optional in_features attribute matters for the configuration functions. -/
structure PyModule where
  inFeatures : Option ℕ
deriving DecidableEq

/-- The nn.Identity module: it exposes no in_features attribute. -/
def identityModule : PyModule := PyModule.mk Option.none

/-- Embedding of configuration_image_model, src/clip.py lines 142-164: look
the requested name up in models.__dict__ (modelled as an association list of
names to the named-module list of the constructed model), read in_features
off the last named module (an AttributeError there is caught and re-raised
as ValueError), replace the last layer by nn.Identity and return the model
with its output dimension. Every failure path is the ValueError with the
message asking for a right image model name. -/
def configuration_image_model (registry : List (String × List PyModule))
    (name : String) : Except String (List PyModule × ℕ) :=
  match registry.lookup name with
  | Option.none => Except.error "Please type right image model name"
  | Option.some modules =>
    match modules.getLast? with
    | Option.none => Except.error "Please type right image model name"
    | Option.some last =>
      match last.inFeatures with
      | Option.none => Except.error "Please type right image model name"
      | Option.some d => Except.ok (modules.dropLast ++ [identityModule], d)

/-- Python negative indexing modules[-i] for the search loop of
configuration_text_model: the index -0 denotes the first module, -i for
i at least 1 the i-th module from the end; an index out of range is an
IndexError. -/
def pyNegGet (l : List PyModule) (i : ℕ) : Option PyModule :=
  if i = 0 then l.get? 0
  else if i ≤ l.length then l.get? (l.length - i) else Option.none

/-- The scan of configuration_text_model lines 210-214: for i in range(10),
probe modules[-i] until a module exposing in_features appears. An IndexError
(probe out of range) ends the scan exceptionally and an exhausted loop
leaves output_shape unassigned (a NameError at the return); both outcomes
are caught and re-raised as the ValueError, so both are none here. -/
def findTextOutputShape (l : List PyModule) : List ℕ → Option ℕ
  | [] => Option.none
  | i :: rest =>
    match pyNegGet l i with
    | Option.none => Option.none
    | Option.some m =>
      match m.inFeatures with
      | Option.some d => Option.some d
      | Option.none => findTextOutputShape l rest

/-- Embedding of configuration_text_model, src/clip.py lines 189-219: look
the requested name up in the transformers class registry, scan the named
modules for an output dimension, and return the wrapped model with that
dimension. Every failure path is the ValueError with the message asking for
a right text model name. -/
def configuration_text_model (registry : List (String × List PyModule))
    (name : String) : Except String (List PyModule × ℕ) :=
  match registry.lookup name with
  | Option.none => Except.error "Please type right text model name"
  | Option.some modules =>
    match findTextOutputShape modules (List.range 10) with
    | Option.none => Except.error "Please type right text model name"
    | Option.some d => Except.ok (modules, d)

/-! ### Rank assignment from json (utils/dataset.py, create_datasets_from_json,
lines 156-170) -/

/-- Embedding of the comment_number assignment of create_datasets_from_json
lines 167-170: a sentence with sentid greater than 10 is stored with rank 1,
otherwise the raw sentid is stored as the rank. -/
def jsonCommentNumber (sentid : ℤ) : ℤ :=
  if sentid > 10 then 1 else sentid

/-! ### Theorems -/

/-- C1: for every batch, the text-to-image logit matrix equals the transpose
of the image-to-text logit matrix entry by entry, in the cosine similarity
of class CLIP and in VisionPartCLIP.forward alike; in both the text side is
defined as the transpose of the image side, never recomputed from the
embeddings. -/
theorem logits_text_eq_transpose {m n d : ℕ} (scale : ℚ)
    (imgF : Fin m → Fin d → ℚ) (txtF : Fin n → Fin d → ℚ)
    (i : Fin m) (j : Fin n) :
    (cosine_similarity scale imgF txtF).2 j i =
      (cosine_similarity scale imgF txtF).1 i j ∧
    (vision_part_logits scale imgF txtF).2 j i =
      (vision_part_logits scale imgF txtF).1 i j :=
  ⟨rfl, rfl⟩

/-- C5: the token sequence returned by the dataset always has length exactly
max_size_seq_len: a longer tokenizer output is truncated to the first
max_size_seq_len ids and a shorter one is right-padded with the pad token
0. -/
theorem padTokens_length_spec (tokens : List ℤ) (maxLen : ℕ) :
    (padTokens tokens maxLen).length = maxLen ∧
    (maxLen ≤ tokens.length → padTokens tokens maxLen = tokens.take maxLen) ∧
    (tokens.length ≤ maxLen →
      padTokens tokens maxLen = tokens ++ List.replicate (maxLen - tokens.length) 0) := by
  refine ⟨?_, ?_, ?_⟩
  · simp only [padTokens]
    split <;> rename_i hc <;> simp [List.length_take] at hc ⊢ <;> omega
  · intro h
    have ht : (tokens.take maxLen).length = maxLen := by
      simp [List.length_take]
      omega
    simp [padTokens, ht]
  · intro h
    simp only [padTokens, List.take_of_length_le h]
    split
    · rfl
    · rename_i hc
      simp at hc
      simp [hc]

/-- C5 witness: the two examples of the specification, max_seq_len 5 with a
short and a long token list. -/
theorem padTokens_length_spec_witness :
    padTokens [7, 8, 9] 5 = [7, 8, 9] ++ List.replicate (5 - 3) 0 ∧
    padTokens [1, 2, 3, 4, 5, 6] 5 = [1, 2, 3, 4, 5, 6].take 5 :=
  ⟨(padTokens_length_spec [7, 8, 9] 5).2.2 (by decide),
   (padTokens_length_spec [1, 2, 3, 4, 5, 6] 5).2.1 (by decide)⟩

/-- C9: the shuffle expression of create_datasets_from_csv line 112 discards
its result, so the produced partition does not depend on the randomness at
all: any two shuffle functions give the identical split, and the train part
is always the first round(0.8 * n) grouped records in their grouped
order. -/
theorem split_deterministic {α : Type}
    (f g : List (String × List α) → List (String × List α))
    (rows : List (String × α)) :
    createSplit f rows = createSplit g rows ∧
    (createSplit f rows).1 =
      (groupByImage rows).take (round08 (groupByImage rows).length) :=
  ⟨rfl, rfl⟩

/-- C7 counterexample: with image dimension 8 and text dimension 4 the text
vector is the shorter one, yet the constructor appends the projection to the
image side and leaves the text side bare, contradicting the claim that the
projection is appended to whichever side is shorter. -/
theorem projection_side_counterexample :
    (4 : ℕ) < 8 ∧
    clipInitImageModel 8 4 = ImageModel.withProjection 8 4 ∧
    imageModelHasProjection (clipInitImageModel 8 4) = true ∧
    clipInitTextHasProjection = false := by
  refine ⟨by norm_num, by decide, by decide, rfl⟩

/-- C7 amended: when the two backbone output dimensions differ, the learned
linear projection is always appended to the image side, mapping image_shape
to text_shape, so both towers land in the shared dimension text_shape; when
the dimensions are equal no projection is added, and the text side never
receives a projection. -/
theorem projection_always_on_image_side (image_shape text_shape : ℕ) :
    (image_shape = text_shape →
      clipInitImageModel image_shape text_shape = ImageModel.plain) ∧
    (image_shape ≠ text_shape →
      clipInitImageModel image_shape text_shape =
        ImageModel.withProjection image_shape text_shape) ∧
    imageModelOutDim image_shape (clipInitImageModel image_shape text_shape) =
      text_shape ∧
    clipInitTextHasProjection = false := by
  unfold clipInitImageModel
  by_cases h : image_shape = text_shape
  · simp [h, imageModelOutDim, clipInitTextHasProjection]
  · simp [h, imageModelOutDim, clipInitTextHasProjection]

/-- C7 amended witness: at equal dimensions 3, 3 no projection is added; at
dimensions 8, 4 the image side gets the projection to output dimension 4. -/
theorem projection_always_on_image_side_witness :
    clipInitImageModel 3 3 = ImageModel.plain ∧
    clipInitImageModel 8 4 = ImageModel.withProjection 8 4 ∧
    imageModelOutDim 8 (clipInitImageModel 8 4) = 4 :=
  ⟨(projection_always_on_image_side 3 3).1 rfl,
   (projection_always_on_image_side 8 4).2.1 (by decide),
   (projection_always_on_image_side 8 4).2.2.1⟩

/-- C10: create_datasets_from_json stores rank 1 when the sentid exceeds 10
and the raw sentid otherwise, so rank 0 (sampler weight 5) and ranks 6
through 10 (negative sampler weights under w = 5 - r) reach the sampler that
assumes ranks 1..5: a rank 0 record is sampled without any error and a rank
6 record produces a negative probability entry. -/
theorem json_rank_out_of_range (s : ℤ) :
    (s > 10 → jsonCommentNumber s = 1) ∧
    (s ≤ 10 → jsonCommentNumber s = s) ∧
    marksOf [jsonCommentNumber 0] = [5] ∧
    (6 ≤ s → s ≤ 10 → 5 - jsonCommentNumber s < 0) ∧
    chooseCaption [jsonCommentNumber 0] 0 = Except.ok 0 ∧
    probabilityOf [1, jsonCommentNumber 6] =
      [Option.some (4 / 3), Option.some (-1 / 3)] := by
  have h0 : jsonCommentNumber 0 = 0 := by norm_num [jsonCommentNumber]
  have h6v : jsonCommentNumber 6 = 6 := by norm_num [jsonCommentNumber]
  refine ⟨?_, ?_, ?_, ?_, ?_, ?_⟩
  · intro h
    simp [jsonCommentNumber, h]
  · intro h
    simp [jsonCommentNumber]
    omega
  · rw [h0]
    norm_num [marksOf]
  · intro h6 h10
    simp [jsonCommentNumber]
    omega
  · rw [h0]
    norm_num [chooseCaption, npRandomChoice, probabilityOf, marksOf, cumsum,
      cumsumFrom, searchsortedRight, List.getLastD]
    intro h
    simp at h
  · rw [h6v]
    norm_num [probabilityOf, marksOf]

/-- C10 witness: sentid 11 is stored as rank 1, sentid 7 is stored raw and
yields a negative weight, and the rank 0 record is sampled without error. -/
theorem json_rank_out_of_range_witness :
    jsonCommentNumber 11 = 1 ∧
    jsonCommentNumber 7 = 7 ∧
    5 - jsonCommentNumber 7 < 0 ∧
    chooseCaption [jsonCommentNumber 0] 0 = Except.ok 0 :=
  ⟨(json_rank_out_of_range 11).1 (by decide),
   (json_rank_out_of_range 7).2.1 (by decide),
   (json_rank_out_of_range 7).2.2.2.1 (by decide) (by decide),
   (json_rank_out_of_range 0).2.2.2.2.1⟩

/-! ### Helper lemmas -/

/-- Helper: a list of nonnegative rationals with one positive member has a
positive sum. -/
theorem sum_pos_of_mem_pos {l : List ℚ} (h0 : ∀ x ∈ l, 0 ≤ x)
    {x : ℚ} (hx : x ∈ l) (hxp : 0 < x) : 0 < l.sum := by
  induction l with
  | nil => simp at hx
  | cons a t ih =>
    rcases List.mem_cons.mp hx with h | h
    · subst h
      have ht : (0 : ℚ) ≤ t.sum :=
        List.sum_nonneg (fun y hy => h0 y (List.mem_cons_of_mem _ hy))
      rw [List.sum_cons]
      linarith
    · have ha : (0 : ℚ) ≤ a := h0 a (List.mem_cons_self a t)
      have hs := ih (fun y hy => h0 y (List.mem_cons_of_mem _ hy)) h
      rw [List.sum_cons]
      linarith

/-- Helper: mapping division by a constant distributes over the list sum. -/
theorem sum_map_div (l : List ℚ) (s : ℚ) :
    (l.map (fun x => x / s)).sum = l.sum / s := by
  induction l with
  | nil => simp
  | cons a t ih => simp [ih, add_div]

/-- Helper: the last cumulative sum is the accumulator plus the list sum. -/
theorem cumsumFrom_getLastD (l : List ℚ) :
    ∀ a d : ℚ, (cumsumFrom a l).getLastD d = if l = [] then d else a + l.sum := by
  induction l with
  | nil =>
    intro a d
    simp [cumsumFrom]
  | cons x xs ih =>
    intro a d
    simp only [cumsumFrom, List.getLastD_cons]
    rw [ih (a + x) (a + x)]
    by_cases h : xs = []
    · simp [h]
    · rw [if_neg h, if_neg (by simp : ¬(x :: xs = []))]
      rw [List.sum_cons]
      ring

/-- Helper: inverse transform sampling on the cumulative sums of a
nonnegative list never returns an index whose entry is zero: the cdf is flat
there, so no uniform value selects it. -/
theorem ssr_cumsum_ne_zero_index (q : List ℚ) :
    ∀ acc u : ℚ, acc ≤ u → (∀ x ∈ q, 0 ≤ x) →
    ∀ i, ∀ hi : i < q.length, q.get ⟨i, hi⟩ = 0 →
    searchsortedRight (cumsumFrom acc q) u ≠ i := by
  induction q with
  | nil =>
    intro acc u _ _ i hi
    simp at hi
  | cons x xs ih =>
    intro acc u hau hq i hi h0
    cases i with
    | zero =>
      have hx : x = 0 := by simpa using h0
      simp only [cumsumFrom, searchsortedRight]
      rw [if_pos (by rw [hx, add_zero]; exact hau)]
      omega
    | succ j =>
      simp only [cumsumFrom, searchsortedRight]
      by_cases hle : acc + x ≤ u
      · rw [if_pos hle]
        have hj : xs.get ⟨j, by simpa using hi⟩ = 0 := by simpa using h0
        have hne := ih (acc + x) u hle
          (fun y hy => hq y (List.mem_cons_of_mem _ hy)) j (by simpa using hi) hj
        omega
      · rw [if_neg hle]
        omega

/-- Helper: a module returned by the python negative indexing is a member of
the module list. -/
theorem pyNegGet_mem {l : List PyModule} {i : ℕ} {m : PyModule}
    (h : pyNegGet l i = Option.some m) : m ∈ l := by
  unfold pyNegGet at h
  split at h
  · exact List.get?_mem h
  · split at h
    · exact List.get?_mem h
    · simp at h

/-- Helper: a dimension found by the scan of configuration_text_model comes
from the in_features attribute of an actual module of the model. -/
theorem findTextOutputShape_mem (l : List PyModule) :
    ∀ idxs d, findTextOutputShape l idxs = Option.some d →
      ∃ m ∈ l, m.inFeatures = Option.some d := by
  intro idxs
  induction idxs with
  | nil =>
    intro d h
    simp [findTextOutputShape] at h
  | cons i rest ih =>
    intro d h
    simp only [findTextOutputShape] at h
    split at h
    · simp at h
    · rename_i m hg
      split at h
      · rename_i dd hf
        refine ⟨m, pyNegGet_mem hg, ?_⟩
        rw [hf]
        exact h
      · exact ih d h

/-- Helper: the squared entries of a nonzero real vector have positive
sum. -/
theorem sumsq_pos {n : ℕ} (v : Fin n → ℝ) (hv : v ≠ 0) :
    0 < ∑ i, v i ^ 2 := by
  obtain ⟨i, hi⟩ := Function.ne_iff.mp hv
  refine Finset.sum_pos' (fun j _ => sq_nonneg _) ⟨i, Finset.mem_univ i, ?_⟩
  exact lt_of_le_of_ne (sq_nonneg _) (Ne.symm (pow_ne_zero 2 hi))

/-- C2: when every quality rank of a caption record equals 5, every weight
5 - r is zero, the probability vector is made of non-finite values, and the
sampling call of the dataset getitem fails with the numpy ValueError instead
of silently choosing a caption uniformly or completing the zero division
into a valid draw. -/
theorem allRankFive_sampling_errors (ranks : List ℤ) (u : ℚ)
    (hne : ranks ≠ []) (h5 : ∀ r ∈ ranks, r = (5 : ℤ)) :
    chooseCaption ranks u = Except.error "probabilities contain NaN" := by
  have hm : ∀ x ∈ marksOf ranks, x = (0 : ℚ) := by
    simp only [marksOf, List.mem_map]
    rintro x ⟨r, hr, rfl⟩
    rw [h5 r hr]
    norm_num
  have hs : (marksOf ranks).sum = 0 := List.sum_eq_zero hm
  have hp : probabilityOf ranks = (marksOf ranks).map (fun _ => Option.none) := by
    simp [probabilityOf, hs]
  have hnonempty : marksOf ranks ≠ [] := by
    simp only [marksOf, ne_eq, List.map_eq_nil_iff]
    exact hne
  obtain ⟨x, hx⟩ := List.exists_mem_of_ne_nil _ hnonempty
  have hmem : ∃ y ∈ probabilityOf ranks, y = Option.none := by
    rw [hp]
    exact ⟨Option.none, List.mem_map_of_mem _ hx, rfl⟩
  unfold chooseCaption npRandomChoice
  rw [if_pos hmem]

/-- C2 witness: the record with both ranks equal to 5 fails at the concrete
uniform draw 0. -/
theorem allRankFive_sampling_errors_witness :
    chooseCaption [5, 5] 0 = Except.error "probabilities contain NaN" :=
  allRankFive_sampling_errors [5, 5] 0 (by decide) (by decide)

/-- C3 amended: the normalization of the forward pass never raises. For a
raw vector of zero L2 norm the code divides silently, every component of the
result being non-finite; for every nonzero raw vector the normalization
succeeds and the result has exact unit L2 norm. -/
theorem normalization_spec {n : ℕ} (v : Fin n → ℝ) :
    (v = 0 → ∀ i, forward_image v i = Option.none) ∧
    (v ≠ 0 → (∀ i, forward_image v i = Option.some (v i / l2norm v)) ∧
      l2norm (fun i => v i / l2norm v) = 1) := by
  constructor
  · rintro rfl i
    have h : l2norm (0 : Fin n → ℝ) = 0 := by
      simp [l2norm]
    simp [forward_image, fdiv, h]
  · intro hv
    have hS : 0 < ∑ i, v i ^ 2 := sumsq_pos v hv
    have hN : 0 < l2norm v := Real.sqrt_pos.mpr hS
    constructor
    · intro i
      simp [forward_image, fdiv, ne_of_gt hN]
    · have hsum : ∑ i, (v i / l2norm v) ^ 2 = 1 := by
        simp only [div_pow]
        rw [← Finset.sum_div]
        simp only [l2norm]
        rw [Real.sq_sqrt hS.le]
        exact div_self (ne_of_gt hS)
      simp only [l2norm, div_pow] at hsum ⊢
      rw [hsum, Real.sqrt_one]

/-- C3 witness: the vector (3, 4) is nonzero, is normalized without any
error and the normalized vector has unit L2 norm. -/
theorem normalization_spec_witness :
    l2norm (fun i => (![3, 4] : Fin 2 → ℝ) i / l2norm ![3, 4]) = 1 :=
  ((normalization_spec ![3, 4]).2 (by
    intro h
    have h0 := congrFun h 0
    norm_num [Matrix.cons_val_zero, Pi.zero_apply] at h0)).2

/-- C3 counterexample: at the concrete zero vector of dimension 2 the claim
fails: no error is raised. The CLIP forward pass returns only non-finite
components out of the silent division by the zero norm, and the functional
normalize used by VisionPartCLIP returns the zero vector unchanged because
of its eps clamp. -/
theorem normalization_zero_counterexample :
    forward_image (fun _ : Fin 2 => (0 : ℝ)) = (fun _ => Option.none) ∧
    normalizeEps (((10 : ℝ) ^ (12 : ℕ))⁻¹) (fun _ : Fin 2 => (0 : ℝ)) =
      (fun _ => 0) := by
  have h0 : l2norm (fun _ : Fin 2 => (0 : ℝ)) = 0 := by
    simp [l2norm]
  constructor
  · funext i
    simp [forward_image, fdiv, h0]
  · funext i
    simp [normalizeEps, h0]

/-- C4: for a caption record whose ranks lie in 1..5 and are not all 5, the
sampler builds exactly the probability vector of the unnormalized weights
5 - r divided by their sum (for ranks [1, 3] this is [2/3, 1/3]) and the
index drawn by np.random.choice is never one whose rank is 5, whatever
uniform value the random source produces. -/
theorem sampler_distribution_spec (ranks : List ℤ)
    (hr : ∀ r ∈ ranks, 1 ≤ r ∧ r ≤ 5) (hne : ∃ r ∈ ranks, r ≠ 5) (u : ℚ)
    (hu : 0 ≤ u) :
    probabilityOf ranks =
      ranks.map (fun (r : ℤ) => Option.some ((5 - (r : ℚ)) / (marksOf ranks).sum)) ∧
    probabilityOf [1, 3] = [Option.some (2 / 3), Option.some (1 / 3)] ∧
    (∀ i, ∀ hi : i < ranks.length, ranks.get ⟨i, hi⟩ = 5 →
      chooseCaption ranks u ≠ Except.ok i) := by
  have hnn : ∀ x ∈ marksOf ranks, (0 : ℚ) ≤ x := by
    simp only [marksOf, List.mem_map]
    rintro x ⟨r, hrm, rfl⟩
    have h2 : (r : ℚ) ≤ 5 := by exact_mod_cast (hr r hrm).2
    linarith
  have hpos : (0 : ℚ) < (marksOf ranks).sum := by
    obtain ⟨r, hrm, hr5⟩ := hne
    have hlt : (r : ℚ) < 5 := by
      exact_mod_cast lt_of_le_of_ne (hr r hrm).2 hr5
    exact sum_pos_of_mem_pos hnn
      (show (5 - (r : ℚ)) ∈ marksOf ranks from
        List.mem_map_of_mem (fun (r : ℤ) => 5 - (r : ℚ)) hrm)
      (by linarith)
  have hs0 : (marksOf ranks).sum ≠ 0 := ne_of_gt hpos
  have hranksne : ranks ≠ [] := by
    rintro rfl
    simp [marksOf] at hpos
  have hprob : probabilityOf ranks =
      ranks.map (fun (r : ℤ) => Option.some ((5 - (r : ℚ)) / (marksOf ranks).sum)) := by
    simp only [probabilityOf, List.map_map, if_neg hs0]
    simp [marksOf, List.map_map, Function.comp]
  refine ⟨hprob, by norm_num [probabilityOf, marksOf], ?_⟩
  intro i hi h5i
  set s := (marksOf ranks).sum with hsdef
  have hq : (probabilityOf ranks).map (fun x => x.getD 0) =
      (marksOf ranks).map (fun x => x / s) := by
    rw [hprob]
    simp [marksOf, List.map_map, Function.comp]
  have hqnn : ∀ x ∈ (marksOf ranks).map (fun x => x / s), (0 : ℚ) ≤ x := by
    simp only [List.mem_map]
    rintro x ⟨y, hy, rfl⟩
    exact div_nonneg (hnn y hy) (le_of_lt hpos)
  have hqsum : ((marksOf ranks).map (fun x => x / s)).sum = 1 := by
    rw [sum_map_div]
    exact div_self hs0
  have hqne : (marksOf ranks).map (fun x => x / s) ≠ [] := by
    simp only [ne_eq, List.map_eq_nil_iff, marksOf]
    simp [hranksne]
  have hchoose : chooseCaption ranks u =
      Except.ok (searchsortedRight
        (cumsumFrom 0 ((marksOf ranks).map (fun x => x / s))) u) := by
    unfold chooseCaption npRandomChoice
    rw [if_neg (by rw [hprob]; simp)]
    simp only [hq]
    rw [if_neg (by
      simp only [not_exists, not_and, not_lt]
      intro x hx
      exact hqnn x hx)]
    rw [if_neg (by rw [hqsum]; simp)]
    have hlast : (cumsum ((marksOf ranks).map (fun x => x / s))).getLastD 0 = 1 := by
      rw [cumsum, cumsumFrom_getLastD, if_neg hqne, zero_add, hqsum]
    rw [hlast]
    simp [cumsum]
  rw [hchoose]
  intro hcontra
  have hidx := Except.ok.inj hcontra
  have hlen : i < ((marksOf ranks).map (fun x => x / s)).length := by
    simpa [marksOf] using hi
  have hget : ((marksOf ranks).map (fun x => x / s)).get ⟨i, hlen⟩ = 0 := by
    simp only [List.get_map, marksOf]
    rw [show ((ranks.get ⟨i, by simpa using hi⟩ : ℤ) : ℚ) = (5 : ℚ) by
      exact_mod_cast congrArg (fun (z : ℤ) => (z : ℚ)) h5i]
    simp
  exact ssr_cumsum_ne_zero_index _ 0 u hu hqnn i hlen hget hidx

/-- C4 witness: for ranks [1, 3] the probability vector is [2/3, 1/3], and
for ranks [1, 5] the rank 5 caption at index 1 is not chosen at the concrete
uniform draw 0. -/
theorem sampler_distribution_spec_witness :
    probabilityOf [1, 3] = [Option.some (2 / 3), Option.some (1 / 3)] ∧
    chooseCaption [1, 5] 0 ≠ Except.ok 1 :=
  ⟨(sampler_distribution_spec [1, 3] (by decide) (by decide) 0 le_rfl).2.1,
   (sampler_distribution_spec [1, 5] (by decide) (by decide) 0 le_rfl).2.2
     1 (by decide) (by decide)⟩

/-- C6: the 80/20 split of create_datasets_from_csv operates on the grouped
per-image records: train and valid together are exactly the grouped records,
the train part holds round(0.8 * number of unique image keys) of them, no
image key appears on both sides, and every grouped record carries the
complete payload list of its key, so the captions of one image can never be
divided between the two sides. -/
theorem split_partitions_by_image {α : Type}
    (shuffle : List (String × List α) → List (String × List α))
    (rows : List (String × α)) :
    (createSplit shuffle rows).1 ++ (createSplit shuffle rows).2 =
      groupByImage rows ∧
    (createSplit shuffle rows).1.length =
      min (round08 (groupByImage rows).length) (groupByImage rows).length ∧
    (∀ k : String, ¬(k ∈ (createSplit shuffle rows).1.map Prod.fst ∧
        k ∈ (createSplit shuffle rows).2.map Prod.fst)) ∧
    (∀ k g, (k, g) ∈ groupByImage rows →
      g = (rows.filter (fun r => decide (r.1 = k))).map Prod.snd) := by
  refine ⟨List.take_append_drop _ _, by simp [createSplit], ?_, ?_⟩
  · rintro k ⟨h1, h2⟩
    have hfst : (groupByImage rows).map Prod.fst = groupKeys rows := by
      unfold groupByImage
      rw [List.map_map]
      exact List.map_id (groupKeys rows)
    have hnodup : ((groupByImage rows).map Prod.fst).Nodup := by
      rw [hfst]
      exact List.nodup_dedup _
    have key : (((groupByImage rows).take
          (round08 (groupByImage rows).length)).map Prod.fst ++
        ((groupByImage rows).drop
          (round08 (groupByImage rows).length)).map Prod.fst).Nodup := by
      rw [← List.map_append, List.take_append_drop]
      exact hnodup
    exact (List.nodup_append.mp key).2.2 h1 h2
  · intro k g hm
    simp only [groupByImage, List.mem_map] at hm
    obtain ⟨k2, hk2, hEq⟩ := hm
    rw [Prod.mk.injEq] at hEq
    obtain ⟨h1, h2⟩ := hEq
    subst h1
    exact h2.symm

/-- C6 witness: a concrete table of three rows over two image keys splits
into a partition of the grouped records, and the key of the first record is
not on both sides. -/
theorem split_partitions_by_image_witness :
    (createSplit id [("a", (1 : ℕ)), ("b", 2), ("a", 3)]).1 ++
        (createSplit id [("a", (1 : ℕ)), ("b", 2), ("a", 3)]).2 =
      groupByImage [("a", (1 : ℕ)), ("b", 2), ("a", 3)] ∧
    ¬("a" ∈ (createSplit id [("a", (1 : ℕ)), ("b", 2), ("a", 3)]).1.map Prod.fst ∧
      "a" ∈ (createSplit id [("a", (1 : ℕ)), ("b", 2), ("a", 3)]).2.map Prod.fst) :=
  ⟨(split_partitions_by_image id _).1,
   (split_partitions_by_image id _).2.2.1 "a"⟩

/-- C8: both backbone configuration functions fail with their ValueError for
a name missing from the registry and for a model whose output dimension
cannot be determined, and every success means the name was found and the
dimension was read off an actual module attribute, never defaulted. -/
theorem configuration_error_spec (registry : List (String × List PyModule))
    (name : String) :
    (registry.lookup name = Option.none →
      configuration_image_model registry name =
        Except.error "Please type right image model name" ∧
      configuration_text_model registry name =
        Except.error "Please type right text model name") ∧
    (∀ modules, registry.lookup name = Option.some modules →
      (modules.getLast?.bind PyModule.inFeatures = Option.none →
        configuration_image_model registry name =
          Except.error "Please type right image model name") ∧
      (findTextOutputShape modules (List.range 10) = Option.none →
        configuration_text_model registry name =
          Except.error "Please type right text model name")) ∧
    (∀ m d, configuration_image_model registry name = Except.ok (m, d) →
      ∃ modules last, registry.lookup name = Option.some modules ∧
        modules.getLast? = Option.some last ∧
        last.inFeatures = Option.some d) ∧
    (∀ m d, configuration_text_model registry name = Except.ok (m, d) →
      ∃ modules, registry.lookup name = Option.some modules ∧
        m = modules ∧ ∃ mdl ∈ modules, mdl.inFeatures = Option.some d) := by
  refine ⟨?_, ?_, ?_, ?_⟩
  · intro hlook
    constructor
    · unfold configuration_image_model
      rw [hlook]
    · unfold configuration_text_model
      rw [hlook]
  · intro modules hlook
    constructor
    · intro hlast
      unfold configuration_image_model
      rw [hlook]
      cases hl : modules.getLast? with
      | none => simp [hl]
      | some last =>
        rw [hl] at hlast
        simp only [Option.some_bind] at hlast
        simp [hl, hlast]
    · intro hfind
      unfold configuration_text_model
      rw [hlook]
      simp [hfind]
  · intro m d h
    unfold configuration_image_model at h
    split at h
    · exact Except.noConfusion h
    · rename_i modules hlook
      split at h
      · exact Except.noConfusion h
      · rename_i last hl
        split at h
        · exact Except.noConfusion h
        · rename_i dd hf
          simp only [Except.ok.injEq, Prod.mk.injEq] at h
          exact ⟨modules, last, hlook, hl, by rw [hf, h.2]⟩
  · intro m d h
    unfold configuration_text_model at h
    split at h
    · exact Except.noConfusion h
    · rename_i modules hlook
      split at h
      · exact Except.noConfusion h
      · rename_i dd hfind
        simp only [Except.ok.injEq, Prod.mk.injEq] at h
        refine ⟨modules, hlook, h.1.symm, ?_⟩
        rw [← h.2]
        exact findTextOutputShape_mem modules (List.range 10) dd hfind

/-- C8 witness: a registry holding only the name a rejects the unknown name
b with both ValueError messages, and a model whose last module exposes no
in_features is rejected even though its name c is registered. -/
theorem configuration_error_spec_witness :
    configuration_image_model [("a", [PyModule.mk (Option.some 512)])] "b" =
      Except.error "Please type right image model name" ∧
    configuration_text_model [("a", [PyModule.mk (Option.some 512)])] "b" =
      Except.error "Please type right text model name" ∧
    configuration_image_model [("c", [PyModule.mk Option.none])] "c" =
      Except.error "Please type right image model name" :=
  ⟨((configuration_error_spec [("a", [PyModule.mk (Option.some 512)])] "b").1
      (by rfl)).1,
   ((configuration_error_spec [("a", [PyModule.mk (Option.some 512)])] "b").1
      (by rfl)).2,
   (((configuration_error_spec [("c", [PyModule.mk Option.none])] "c").2.1
      [PyModule.mk Option.none] (by rfl)).1 (by rfl))⟩
